import Mathlib

/-!
Verification of `scan_unmerged_branches.py` (stale-branch-scanner).

Shallow embedding conventions:
* Python wall-clock time (`datetime.datetime.now().astimezone()`) is passed
  explicitly as a parameter `now : Int`, an instant measured in microseconds
  on the proleptic-Gregorian UTC timeline (Python ordinal day 1 = 0001-01-01).
* Aware `datetime` values are likewise represented by their UTC instant in
  microseconds; `timedelta.days` is floor division by the microseconds of a
  day, matching Python's normalization.
* Subprocess execution (`git_exec`) is an oracle parameter
  `exec : String → List String` mapping the constructed command line to the
  stdout line list.
* Python `dict`s are association lists with Python's insertion-order
  semantics: assignment to a present key updates the value in place, a new
  key is appended at the end.
* Fallible code returns `Except`/`Option`; an uncaught Python exception is
  an `Except.error`.
-/

namespace StaleScan

/-! ## Python string primitives -/

/-- The characters of Python's `string.whitespace`. -/
def isPyWs (c : Char) : Bool :=
  c == ' ' || c == '\t' || c == '\n' || c == '\r' || c == '\x0B' || c == '\x0C'

/-- `any(c in string.whitespace for c in text)`. -/
def hasPyWs (s : String) : Bool := s.data.any isPyWs

/-- Python `str.strip()` (both ends, `string.whitespace` characters). -/
def pyStrip (s : String) : String :=
  ⟨((s.data.dropWhile isPyWs).reverse.dropWhile isPyWs).reverse⟩

/-- Python `str.split(sep)` for a single-character separator: split at every
occurrence, keeping empty parts (`"".split(sep) == [""]`). -/
def pySplitChar (sep : Char) : List Char → List (List Char)
  | [] => [[]]
  | c :: rest =>
    if c = sep then [] :: pySplitChar sep rest
    else
      match pySplitChar sep rest with
      | [] => [[c]]
      | f :: t => (c :: f) :: t

/-- Python `str.split('|')` returning strings. -/
def pySplitPipe (s : String) : List String :=
  (pySplitChar '|' s.data).map (fun l => ⟨l⟩)

def pyStartsWithAux : List Char → List Char → Bool
  | [], _ => true
  | _ :: _, [] => false
  | p :: ps, c :: cs => p == c && pyStartsWithAux ps cs

/-- Python `str.startswith(p)`. -/
def pyStartsWith (s p : String) : Bool := pyStartsWithAux p.data s.data

/-- `os.path.basename` (POSIX): the part after the last `'/'`. -/
def pyBasename (s : String) : String :=
  ⟨(s.data.reverse.takeWhile (fun c => c ≠ '/')).reverse⟩

/-! ## Proleptic Gregorian calendar (Python `datetime.date.toordinal`) -/

def isLeap (y : Nat) : Bool := (y % 4 == 0 && y % 100 != 0) || y % 400 == 0

def daysInMonth (y m : Nat) : Nat :=
  match m with
  | 1 => 31 | 2 => if isLeap y then 29 else 28 | 3 => 31 | 4 => 30
  | 5 => 31 | 6 => 30 | 7 => 31 | 8 => 31 | 9 => 30 | 10 => 31
  | 11 => 30 | 12 => 31
  | _ => 0

/-- Days in year `y` strictly before month `m`. -/
def daysBeforeMonth (y m : Nat) : Nat :=
  (List.range 13).foldl (fun acc k => if 1 ≤ k ∧ k < m then acc + daysInMonth y k else acc) 0

/-- Python `date(y, m, d).toordinal()`: day count with 0001-01-01 ↦ 1. -/
def toOrdinal (y m d : Nat) : Nat :=
  365 * (y - 1) + (y - 1) / 4 - (y - 1) / 100 + (y - 1) / 400 + daysBeforeMonth y m + d

/-- Microseconds per day. -/
def usPerDay : Int := 86400000000

/-! ## `datetime.datetime.strptime(s, '%Y-%m-%dT%H:%M:%S%z')`

Modelled on CPython 3 `_strptime`: the format compiles to the anchored regex
`(?P<Y>\d\d\d\d)-(?P<m>1[0-2]|0[1-9]|[1-9])-(?P<d>3[0-1]|[1-2]\d|0[1-9]|[1-9]| [1-9])T`
`(?P<H>2[0-3]|[0-1]\d|\d):(?P<M>[0-5]\d|\d):(?P<S>6[0-1]|[0-5]\d|\d)`
`(?P<z>[+-]\d\d:?[0-5]\d(:?[0-5]\d(\.\d{1,6})?)?|(?-i:Z))`
compiled with IGNORECASE (so the literal `T` also matches `t`), the whole
input must be consumed, the `%z` post-processing rejects inconsistent use of
`':'` and offsets not strictly within ±24h, and the final
`datetime(year, month, day, hour, minute, second, 0, tz)` constructor
rejects year 0, out-of-range days and seconds 60/61.  Every rejection is a
`ValueError`; all of them collapse to `none` here.  The result is the UTC
instant in microseconds (naive microseconds minus the UTC offset). -/

def readDigit (c : Char) : Option Nat :=
  if '0' ≤ c ∧ c ≤ '9' then some (c.toNat - 48) else none

def parse2Digits : List Char → Option (Nat × List Char)
  | c1 :: c2 :: rest => do
    let d1 ← readDigit c1
    let d2 ← readDigit c2
    pure (10 * d1 + d2, rest)
  | _ => none

def parse4Digits : List Char → Option (Nat × List Char)
  | c1 :: c2 :: c3 :: c4 :: rest => do
    let d1 ← readDigit c1
    let d2 ← readDigit c2
    let d3 ← readDigit c3
    let d4 ← readDigit c4
    pure (1000 * d1 + 100 * d2 + 10 * d3 + d4, rest)
  | _ => none

/-- One-or-two-digit field: the regex alternations try the two-digit forms
first, so two digits are consumed exactly when their value is admissible
(the following format character is never a digit, so no backtracking into
the one-digit form can succeed after a valid two-digit match). -/
def parse1or2 (twoValid oneValid : Nat → Bool) : List Char → Option (Nat × List Char)
  | [] => none
  | [c1] => do
    let d1 ← readDigit c1
    if oneValid d1 then pure (d1, []) else none
  | c1 :: c2 :: rest => do
    let d1 ← readDigit c1
    match readDigit c2 with
    | some d2 =>
      if twoValid (10 * d1 + d2) then pure (10 * d1 + d2, rest)
      else if oneValid d1 then pure (d1, c2 :: rest) else none
    | none => if oneValid d1 then pure (d1, c2 :: rest) else none

/-- `%d` also admits the ANSI-C form: a space followed by `[1-9]`. -/
def parseDay : List Char → Option (Nat × List Char)
  | ' ' :: c :: rest => do
    let d ← readDigit c
    if 1 ≤ d then pure (d, rest) else none
  | l => parse1or2 (fun v => 1 ≤ v && v ≤ 31) (fun v => 1 ≤ v) l

def expectChar (c : Char) : List Char → Option (List Char)
  | x :: rest => if x = c then some rest else none
  | [] => none

/-- The literal `T`, matched case-insensitively. -/
def expectT : List Char → Option (List Char)
  | x :: rest => if x = 'T' ∨ x = 't' then some rest else none
  | [] => none

/-- `\.\d{1,6}` fraction digits (already past the dot), right-padded to
microseconds; must reach the end of the input. -/
def parseFrac (l : List Char) : Option Int :=
  let ds := l.takeWhile (fun c => ('0' ≤ c ∧ c ≤ '9' : Bool))
  if 1 ≤ ds.length ∧ ds.length ≤ 6 ∧ ds.length = l.length then
    some (((ds.foldl (fun acc c => 10 * acc + (c.toNat - 48)) 0) * 10 ^ (6 - ds.length) : Nat))
  else none

/-- The `%z` directive, consuming the rest of the input; returns the UTC
offset in microseconds. -/
def parseZ (l : List Char) : Option Int := do
  match l with
  | ['Z'] => pure 0
  | c :: rest =>
    if c = '+' ∨ c = '-' then do
      let (hh, r1) ← parse2Digits rest
      let (colon1, r2) := match r1 with
        | ':' :: t => (true, t)
        | _ => (false, r1)
      let (mm, r3) ← parse2Digits r2
      if mm ≥ 60 then none else do
      let (ss, frac) ← (do
        match r3 with
        | [] => pure ((0 : Nat), (0 : Int))
        | ':' :: r4 =>
          if colon1 then do
            let (ss, r5) ← parse2Digits r4
            if ss ≥ 60 then none else
            match r5 with
            | [] => pure (ss, (0 : Int))
            | '.' :: r6 => do
              let f ← parseFrac r6
              pure (ss, f)
            | _ => none
          else none
        | r4 =>
          if colon1 then none else do
            let (ss, r5) ← parse2Digits r4
            if ss ≥ 60 then none else
            match r5 with
            | [] => pure (ss, (0 : Int))
            | '.' :: r6 => do
              let f ← parseFrac r6
              pure (ss, f)
            | _ => none)
      let total : Int := ((hh * 3600 + mm * 60 + ss : Nat) : Int) * 1000000 + frac
      let signed : Int := if c = '-' then -total else total
      if total < usPerDay then pure signed else none
    else none
  | [] => none

/-- `datetime.datetime.strptime(s, '%Y-%m-%dT%H:%M:%S%z')` as a UTC instant
in microseconds; `none` for every input on which Python raises `ValueError`. -/
def strptime (s : String) : Option Int := do
  let (y, l) ← parse4Digits s.data
  let l ← expectChar '-' l
  let (m, l) ← parse1or2 (fun v => 1 ≤ v && v ≤ 12) (fun v => 1 ≤ v) l
  let l ← expectChar '-' l
  let (d, l) ← parseDay l
  let l ← expectT l
  let (h, l) ← parse1or2 (fun v => v ≤ 23) (fun _ => true) l
  let l ← expectChar ':' l
  let (mi, l) ← parse1or2 (fun v => v ≤ 59) (fun _ => true) l
  let l ← expectChar ':' l
  let (sec, l) ← parse1or2 (fun v => v ≤ 61) (fun _ => true) l
  let off ← parseZ l
  if 1 ≤ y ∧ d ≤ daysInMonth y m ∧ sec ≤ 59 then
    pure (((toOrdinal y m d : Int) * 86400 + h * 3600 + mi * 60 + sec) * 1000000 - off)
  else none

/-! ## Commit data model -/

/-- `COMMIT_DETAILS = namedtuple('COMMIT_DETAILS', ['hash', 'date', 'author', 'subject'])`. -/
structure Commit where
  hash : String
  date : String
  author : String
  subject : String
deriving DecidableEq, Repr

/-- A commit dictionary after the author key has been removed
(`convert_commits_list_to_dict_by_author`): `{hash, date, subject}`. -/
structure CommitD where
  hash : String
  date : String
  subject : String
deriving DecidableEq, Repr

/-- `{branch: {author: [commit...]}}` — the per-scan report shape. -/
abbrev ScanResult := List (String × List (String × List CommitD))

/-- One entry of `self.scans` / `results_by_branch`
(`{'branch': ..., 'repo_dir': ..., 'report': ...}`; the `kwargs` entry is
omitted — none of the aggregation or digest functions read it). -/
structure ScanRecord where
  branch : String
  repo_dir : String
  report : ScanResult
deriving DecidableEq, Repr

/-! ## Staleness filter -/

/-- `ScanUnmergedBranches.date_is_older_than_n_days(date_, n_days, raise_exceptions)`.
`now` stands for `cls.get_datetime_now_with_tz()` (see the header comment);
Python's `(now - dt).days >= n_days` is floor division of the microsecond
difference by one day. -/
def date_is_older_than_n_days (now : Int) (date_ : String) (n_days : Int)
    (raise_exceptions : Bool) : Except String Bool :=
  match strptime date_ with
  | none =>
    if raise_exceptions then
      .error ("time data " ++ date_ ++ " does not match format %Y-%m-%dT%H:%M:%S%z")
    else .ok false
  | some dt => .ok (decide ((now - dt).fdiv usPerDay ≥ n_days))

/-- Truthiness of the `date_is_older_than_n_days` call site inside
`extract_stale_branches` (no exception can escape with
`raise_exceptions=False`). -/
def dateOlderCall (now : Int) (d : String) (stale : Int) : Bool :=
  match date_is_older_than_n_days now d stale false with
  | .ok b => b
  | .error _ => false

/-- `ScanUnmergedBranches.extract_stale_branches(unmerged_commits_by_branch, stale)`:
keep a branch only when `all(self.date_is_older_than_n_days(d, stale) for d in dates)`. -/
def extract_stale_branches (now : Int) (unmerged_commits_by_branch : List (String × List Commit))
    (stale : Int) : List (String × List Commit) :=
  unmerged_commits_by_branch.filter (fun p =>
    let dates := p.2.map (fun c => c.date)
    dates.all (fun d => dateOlderCall now d stale))

/-- `ScanUnmergedBranches.extract_latest_date_from_commits(commits)`:
`max([strptime(commit['date'], DATE_FRMT) for commit in commits])`;
`none` when Python raises (an unparseable date, or `max` of an empty list). -/
def extract_latest_date_from_commits (commits : List CommitD) : Option Int :=
  match commits.mapM (fun c => strptime c.date) with
  | none => none
  | some ds => ds.max?

/-! ## Branch discovery and divergence reading

`git_exec` is abstracted by an oracle `ex : String → List String` from the
constructed command line to the stdout line list.  A fired
`assert_no_whitespace` is `ScanError.invalidIdentifier` carrying the assert
message; a commit line that does not split into exactly four fields is
`ScanError.malformedCommitLine` (Python: `TypeError` from the namedtuple
constructor). -/

inductive ScanError where
  | invalidIdentifier (msg : String)
  | malformedCommitLine (line : String)
deriving DecidableEq, Repr

/-- Does a result come from a fired `assert_no_whitespace`? -/
def isInvalidIdentifier {α : Type} : Except ScanError α → Bool
  | .error (.invalidIdentifier _) => true
  | _ => false

/-- The post-filter closure `branch_filter` inside
`get_list_of_unmerged_branches`. -/
def branch_filter (include_main : Bool) (main_branch_name : String) (b : String) : Bool :=
  if hasPyWs b then false
  else if include_main = false ∧ b = "origin/" ++ main_branch_name then false
  else true

/-- `if not branch.startswith('origin/'): branch = 'origin/{}'.format(branch)`. -/
def originNamespaced (b : String) : String :=
  if pyStartsWith b "origin/" then b else "origin/" ++ b

/-- `ScanUnmergedBranches.get_list_of_unmerged_branches(branch, repo_dir, include_main=...)`,
with `main_branch_name` the instance attribute `self.main_branch_name`. -/
def get_list_of_unmerged_branches (ex : String → List String) (branch repo_dir : String)
    (include_main : Bool) (main_branch_name : String) : Except ScanError (List String) :=
  if hasPyWs branch then .error (.invalidIdentifier ("target_branch:" ++ branch))
  else if hasPyWs repo_dir then .error (.invalidIdentifier ("repo_dir:" ++ repo_dir))
  else
    let branch' := originNamespaced branch
    let cmd := "git -P branch -r --no-merged " ++ branch'
    let branches := (ex cmd).map pyStrip
    .ok (branches.filter (branch_filter include_main main_branch_name))

/-- Parse one stdout line of the `git -P log` command:
`self.COMMIT_DETAILS(*commit.strip().split('|'))`. -/
def parseCommitLine (line : String) : Except ScanError Commit :=
  match pySplitPipe (pyStrip line) with
  | [h, d, a, s] => .ok ⟨h, d, a, s⟩
  | _ => .error (.malformedCommitLine line)

/-- The list comprehension over the log's stdout lines, failing on the
first malformed line like the Python expression does. -/
def parseCommitLines : List String → Except ScanError (List Commit)
  | [] => .ok []
  | l :: rest =>
    match parseCommitLine l with
    | .error e => .error e
    | .ok c =>
      match parseCommitLines rest with
      | .error e => .error e
      | .ok cs => .ok (c :: cs)

/-- `ScanUnmergedBranches.get_list_of_unmerged_commits(source_branch, target_branch, repo_dir)`. -/
def get_list_of_unmerged_commits (ex : String → List String)
    (source_branch target_branch repo_dir : String) : Except ScanError (List Commit) :=
  if hasPyWs source_branch then .error (.invalidIdentifier ("source_branch:" ++ source_branch))
  else if hasPyWs target_branch then .error (.invalidIdentifier ("target_branch:" ++ target_branch))
  else if hasPyWs repo_dir then .error (.invalidIdentifier ("repo_dir:" ++ repo_dir))
  else
    let target' := originNamespaced target_branch
    let source' := originNamespaced source_branch
    let cmd := "git -P log " ++ source' ++ " --not " ++ target' ++
      " --format=\"%H|%aI|%aE|%s\""
    parseCommitLines (ex cmd)

/-! ## Python dictionaries as insertion-ordered association lists -/

/-- `d[k] = v` on a Python dict: update the first (for a dict: only)
occurrence in place, else append at the end. -/
def listUpdate {β : Type} : List (String × β) → String → β → List (String × β)
  | [], k, v => [(k, v)]
  | (k', v') :: rest, k, v =>
    if k' = k then (k', v) :: rest else (k', v') :: listUpdate rest k v

/-- `outer.setdefault(k1, {})[k2] = v` (two-level nested assignment). -/
def update2 {β : Type} : List (String × List (String × β)) → String → String → β →
    List (String × List (String × β))
  | [], k1, k2, v => [(k1, [(k2, v)])]
  | (k, d) :: rest, k1, k2, v =>
    if k = k1 then (k, listUpdate d k2 v) :: rest
    else (k, d) :: update2 rest k1 k2 v

/-- `outer.setdefault(k1, {}).setdefault(k2, {})[k3] = v`. -/
def update3 {β : Type} : List (String × List (String × List (String × β))) →
    String → String → String → β → List (String × List (String × List (String × β)))
  | [], k1, k2, k3, v => [(k1, [(k2, [(k3, v)])])]
  | (k, d) :: rest, k1, k2, k3, v =>
    if k = k1 then (k, update2 d k2 k3 v) :: rest
    else (k, d) :: update3 rest k1 k2 k3 v

/-- Two-level dictionary read `acc[k1][k2]`. -/
def lookup2 {β : Type} (acc : List (String × List (String × β))) (k1 k2 : String) :
    Option β :=
  (acc.lookup k1).bind (fun d => d.lookup k2)

/-- Three-level dictionary read `acc[k1][k2][k3]`. -/
def lookup3 {β : Type} (acc : List (String × List (String × List (String × β))))
    (k1 k2 k3 : String) : Option β :=
  (acc.lookup k1).bind (fun d => lookup2 d k2 k3)

/-! ## Report pivots -/

/-- `ScanUnmergedBranches.aggregate_scan_results_by_repo(results_by_branch)`. -/
def aggregate_scan_results_by_repo (results_by_branch : List ScanRecord) :
    List (String × List (String × ScanResult)) :=
  results_by_branch.foldl
    (fun acc r => update2 acc r.repo_dir r.branch r.report) []

/-- The inner assignment of `aggregate_scan_results_by_email`:
`results_by_email.setdefault(author, {}).setdefault(repo_dir, {})[target_branch] = commits_list`. -/
def emailInsert (repo br : String)
    (acc : List (String × List (String × List (String × List CommitD))))
    (ac : String × List CommitD) :
    List (String × List (String × List (String × List CommitD))) :=
  update3 acc ac.1 repo br ac.2

/-- Processing one `ScanRecord` in `aggregate_scan_results_by_email`:
iterate the report's branches and each branch's author groups in order. -/
def stepEmail (acc : List (String × List (String × List (String × List CommitD))))
    (r : ScanRecord) : List (String × List (String × List (String × List CommitD))) :=
  r.report.foldl
    (fun acc2 bc => bc.2.foldl (emailInsert r.repo_dir r.branch) acc2)
    acc

/-- `ScanUnmergedBranches.aggregate_scan_results_by_email(results_by_branch)`. -/
def aggregate_scan_results_by_email (results_by_branch : List ScanRecord) :
    List (String × List (String × List (String × List CommitD))) :=
  results_by_branch.foldl stepEmail []

/-- The last `(author, commits)` write for author `a` in a sequence of
author-group writes (the one that survives the left-to-right fold). -/
def lastWrite (a : String) : List (String × List CommitD) → Option (List CommitD)
  | [] => none
  | w :: rest =>
    match lastWrite a rest with
    | some l => some l
    | none => if w.1 = a then some w.2 else none

/-- The author-group write that wins for author `a` while one record's
report is processed: the group of the last `(branch, author)` pair with
author `a`, in report iteration order. -/
def lastAuthorGroup (a : String) (rep : ScanResult) : Option (List CommitD) :=
  lastWrite a (rep.flatMap (fun bc => bc.2))

/-- Occurrence count of key `a` in an association list. -/
def countKey {β : Type} (a : String) (l : List (String × β)) : Nat :=
  l.countP (fun e => e.1 == a)

/-- The report of the last record in the list carrying the pair `(p, q)`
(the write that survives folding `update2` left to right). -/
def lastPairReport (p q : String) : List ScanRecord → Option ScanResult
  | [] => none
  | r :: rest =>
    match lastPairReport p q rest with
    | some rep => some rep
    | none => if r.repo_dir = p ∧ r.branch = q then some r.report else none

/-! ## Pipeline digest builder -/

/-- `scan_id = '<{}>:{}'.format(repo_name, target_branch)` with
`repo_name = os.path.basename(repo_dir)`. -/
def scanId (r : ScanRecord) : String :=
  "<" ++ pyBasename r.repo_dir ++ ">:" ++ r.branch

/-- Python string `<`: lexicographic comparison by code point, a proper
pre-fix being smaller. -/
def pyStrLtAux : List Char → List Char → Bool
  | [], [] => false
  | [], _ :: _ => true
  | _ :: _, [] => false
  | a :: as, b :: bs =>
    if a.toNat < b.toNat then true
    else if b.toNat < a.toNat then false
    else pyStrLtAux as bs

def pyStrLt (s t : String) : Bool := pyStrLtAux s.data t.data

/-- The `sorted(..., key=lambda r: (os.path.basename(r['repo_dir']), r['branch']))`
comparison: lexicographic on the key pair, `≤` so that a stable sort keeps
the original order of ties. -/
def recordKeyLe (a b : ScanRecord) : Bool :=
  if pyBasename a.repo_dir = pyBasename b.repo_dir then
    !(pyStrLt b.branch a.branch)
  else pyStrLt (pyBasename a.repo_dir) (pyBasename b.repo_dir)

/-- Stable insertion of `x` into a `le`-sorted list: `x` goes before the
first element it does not come strictly after. -/
def insortStable {α : Type} (le : α → α → Bool) (x : α) : List α → List α
  | [] => [x]
  | y :: ys => if le x y then x :: y :: ys else y :: insortStable le x ys

/-- Python `sorted` (a stable sort); modelled by stable insertion sort,
which produces the same list for any total preorder `le`. -/
def pySorted {α : Type} (le : α → α → Bool) (l : List α) : List α :=
  l.foldr (insortStable le) []

/-- The staleness sub-lines contributed by the author groups of one stale
branch: one line per `(author, commits)` group, from the most recent commit
of that group; `extract_latest_date_from_commits` raising (`none`) aborts
the whole digest like the Python exception would. -/
def subLinesOfBranch (now : Int) (b : String) :
    List (String × List CommitD) → Except String (List String)
  | [] => .ok []
  | ac :: rest =>
    match extract_latest_date_from_commits ac.2 with
    | none => .error "ValueError in extract_latest_date_from_commits"
    | some latest =>
      match subLinesOfBranch now b rest with
      | .error e => .error e
      | .ok ls =>
        .ok (("    * " ++ b ++ " (" ++
          toString ((now - latest).fdiv usPerDay) ++ " days)") :: ls)

/-- The staleness sub-lines of one non-fresh record: the nested
`for branch ... for author ...` loop of `create_pipeline_report`. -/
def subLinesOfReport (now : Int) : ScanResult → Except String (List String)
  | [] => .ok []
  | bc :: rest =>
    match subLinesOfBranch now bc.1 bc.2 with
    | .error e => .error e
    | .ok ls =>
      match subLinesOfReport now rest with
      | .error e => .error e
      | .ok ls2 => .ok (ls ++ ls2)

/-- One iteration of the `create_pipeline_report` loop, threading the
`scans` dict and `message_lines`. -/
def pipelineStep (now : Int) (acc : List (String × ScanResult) × List String)
    (r : ScanRecord) : Except String (List (String × ScanResult) × List String) :=
  if r.report = [] then
    .ok (acc.1, acc.2 ++ [" - " ++ scanId r ++ " *fresh*"])
  else
    match subLinesOfReport now r.report with
    | .error e => .error e
    | .ok subs =>
      .ok (listUpdate acc.1 (scanId r) r.report,
        acc.2 ++ [" - " ++ scanId r] ++ subs)

/-- `{'scans': ..., 'message': ...}`. -/
structure PipelineReport where
  scans : List (String × ScanResult)
  message : String
deriving Repr

/-- The whole loop of `create_pipeline_report`, record by record. -/
def pipelineGo (now : Int) (acc : List (String × ScanResult) × List String) :
    List ScanRecord → Except String (List (String × ScanResult) × List String)
  | [] => .ok acc
  | r :: rest =>
    match pipelineStep now acc r with
    | .error e => .error e
    | .ok acc2 => pipelineGo now acc2 rest

/-- The `(scans, message_lines)` state after the full loop of
`ScanUnmergedBranches.create_pipeline_report`. -/
def pipelineFold (now : Int) (results_by_branch : List ScanRecord) :
    Except String (List (String × ScanResult) × List String) :=
  pipelineGo now ([], []) (pySorted recordKeyLe results_by_branch)

/-- `ScanUnmergedBranches.create_pipeline_report(results_by_branch)`;
`now` stands for the wall clock read by `get_datetime_now_with_tz`. -/
def create_pipeline_report (now : Int) (results_by_branch : List ScanRecord) :
    Except String PipelineReport :=
  match pipelineFold now results_by_branch with
  | .error e => .error e
  | .ok (scans, lines) => .ok ⟨scans, String.intercalate "\n" lines⟩

/-- Spec-side description (for the digest claims): the staleness in days of
one author group, from its most recent commit. -/
def stalenessDaysSpec (now : Int) (cl : List CommitD) : Int :=
  match extract_latest_date_from_commits cl with
  | some t => (now - t).fdiv usPerDay
  | none => 0

/-- Spec-side description of the message lines contributed by one record:
a fresh line for an empty report, otherwise a summary line followed by one
sub-line per `(branch, author, commits)` triple. -/
def recordLinesSpec (now : Int) (r : ScanRecord) : List String :=
  if r.report = [] then [" - " ++ scanId r ++ " *fresh*"]
  else
    (" - " ++ scanId r) ::
      r.report.flatMap (fun bc =>
        bc.2.map (fun ac =>
          "    * " ++ bc.1 ++ " (" ++ toString (stalenessDaysSpec now ac.2) ++ " days)"))

/-- Every `(branch, author, commits)` group of a report supports the
staleness computation (non-empty, all dates parseable) — the well-formedness
the data model guarantees for real scans. -/
def reportGroupsOk (rep : ScanResult) : Bool :=
  rep.all (fun bc => bc.2.all (fun ac => (extract_latest_date_from_commits ac.2).isSome))

/-- The evolution of the digest's `scans` dict over the sorted records:
a fresh record leaves it unchanged, a non-fresh one assigns its report
under its composite scan id. -/
def pipelineScans : List (String × ScanResult) → List ScanRecord →
    List (String × ScanResult)
  | s, [] => s
  | s, r :: rest =>
    pipelineScans (if r.report = [] then s else listUpdate s (scanId r) r.report) rest

/-! ## Report writing -/

/-- The body of the `try` block of `write_report`: printing to stdout when
no (non-empty) output path is given, else saving to the path.  The two I/O
actions are oracles for whether serialization/writing raises. -/
def effectiveWrite (printOutcome : Except String Unit)
    (saveOutcome : String → Except String Unit) (output : Option String) :
    Except String Unit :=
  match output with
  | none => printOutcome
  | some p => if p = "" then printOutcome else saveOutcome p

/-- `ScanUnmergedBranches.write_report(report, raise_exceptions=..., output=...)`:
returns the printed diagnostic lines and either the exit code or the
re-raised exception.  (`output or None` maps the empty string to `None`.) -/
def write_report (printOutcome : Except String Unit)
    (saveOutcome : String → Except String Unit) (output : Option String)
    (raise_exceptions : Bool) : List String × Except String Int :=
  match effectiveWrite printOutcome saveOutcome output with
  | .ok _ => ([], .ok 0)
  | .error exc =>
    (["exception saving report: " ++ exc],
      if raise_exceptions then .error exc else .ok 1)

/-! ## Helper lemmas -/

/-- With `raise_exceptions=False` the date check never raises: it returns
exactly the boolean used at the `extract_stale_branches` call site. -/
theorem date_is_older_noRaise (now : Int) (d : String) (n : Int) :
    date_is_older_than_n_days now d n false = .ok (dateOlderCall now d n) := by
  unfold dateOlderCall
  cases h : strptime d with
  | none => simp [date_is_older_than_n_days, h]
  | some t => simp [date_is_older_than_n_days, h]

theorem dateOlderCall_iff_ok_true (now : Int) (d : String) (n : Int) :
    dateOlderCall now d n = true ↔ date_is_older_than_n_days now d n false = .ok true := by
  rw [date_is_older_noRaise]
  simp

end StaleScan

namespace StaleScan

/-- C1: `extract_stale_branches` keeps a branch if and only if every one of
its commits is old (`date_is_older_than_n_days` at the single captured
`now`); in particular an empty commit list passes vacuously, and a branch
with any commit reported as not old is excluded. -/
theorem extract_stale_keeps_iff_all_old (now stale : Int)
    (ucbb : List (String × List Commit)) (b : String) (cs : List Commit) :
    ((b, cs) ∈ extract_stale_branches now ucbb stale ↔
      (b, cs) ∈ ucbb ∧
        ∀ c ∈ cs, date_is_older_than_n_days now c.date stale false = .ok true)
    ∧ (cs = [] → (b, cs) ∈ ucbb → (b, cs) ∈ extract_stale_branches now ucbb stale)
    ∧ ((∃ c ∈ cs, date_is_older_than_n_days now c.date stale false = .ok false) →
        (b, cs) ∉ extract_stale_branches now ucbb stale) := by
  have main : (b, cs) ∈ extract_stale_branches now ucbb stale ↔
      (b, cs) ∈ ucbb ∧
        ∀ c ∈ cs, date_is_older_than_n_days now c.date stale false = .ok true := by
    unfold extract_stale_branches
    rw [List.mem_filter]
    simp only [List.all_eq_true, List.mem_map]
    constructor
    · rintro ⟨hmem, hall⟩
      refine ⟨hmem, fun c hc => ?_⟩
      rw [← dateOlderCall_iff_ok_true]
      exact hall _ ⟨c, hc, rfl⟩
    · rintro ⟨hmem, hall⟩
      refine ⟨hmem, ?_⟩
      rintro d ⟨c, hc, rfl⟩
      rw [dateOlderCall_iff_ok_true]
      exact hall c hc
  refine ⟨main, ?_, ?_⟩
  · rintro rfl hmem
    exact main.mpr ⟨hmem, by simp⟩
  · rintro ⟨c, hc, hfalse⟩ hmem
    have := (main.mp hmem).2 c hc
    rw [hfalse] at this
    simp at this

/-- C1 witness: with `now` at 2020-01-20 and threshold 7 days, a branch
with an empty commit list passes, and a branch mixing a 19-day-old commit
with a 2-day-old one is excluded. -/
theorem extract_stale_keeps_iff_all_old_witness :
    (("empty", ([] : List Commit)) ∈
      extract_stale_branches 63715334400000000
        [("empty", []),
         ("mixed", [⟨"h1", "2020-01-01T00:00:00+00:00", "a@x.com", "s1"⟩,
                    ⟨"h2", "2020-01-18T00:00:00+00:00", "a@x.com", "s2"⟩])] 7)
    ∧ (("mixed", [⟨"h1", "2020-01-01T00:00:00+00:00", "a@x.com", "s1"⟩,
                  ⟨"h2", "2020-01-18T00:00:00+00:00", "a@x.com", "s2"⟩]) ∉
      extract_stale_branches 63715334400000000
        [("empty", []),
         ("mixed", [⟨"h1", "2020-01-01T00:00:00+00:00", "a@x.com", "s1"⟩,
                    ⟨"h2", "2020-01-18T00:00:00+00:00", "a@x.com", "s2"⟩])] 7) := by
  constructor
  · exact (extract_stale_keeps_iff_all_old 63715334400000000 7 _ "empty" []).2.1
      rfl (by decide)
  · exact (extract_stale_keeps_iff_all_old 63715334400000000 7 _ "mixed" _).2.2
      ⟨⟨"h2", "2020-01-18T00:00:00+00:00", "a@x.com", "s2"⟩, by decide, rfl⟩

/-- C3: a timestamp on which `strptime` fails makes
`date_is_older_than_n_days` return "not old" (`False`) rather than raise,
for every threshold; it raises exactly when `raise_exceptions=True`, and on
a parseable timestamp the strict and lenient modes agree. -/
theorem date_check_fails_open (s : String) (now n : Int) :
    (strptime s = none →
      date_is_older_than_n_days now s n false = .ok false ∧
      ∃ e, date_is_older_than_n_days now s n true = .error e)
    ∧ (∀ t, strptime s = some t →
      date_is_older_than_n_days now s n true = date_is_older_than_n_days now s n false ∧
      date_is_older_than_n_days now s n false =
        .ok (decide ((now - t).fdiv usPerDay ≥ n))) := by
  unfold date_is_older_than_n_days
  constructor
  · intro h
    rw [h]
    exact ⟨rfl, _, rfl⟩
  · intro t h
    rw [h]
    exact ⟨rfl, rfl⟩

/-- C3 witness: the three unparseable shapes from the spec return
`.ok false` in lenient mode and raise in strict mode; the parseable
`2020-01-28T11:39:03+02:00` never raises. -/
theorem date_check_fails_open_witness :
    (date_is_older_than_n_days 63715334400000000 "2020-01-28" 7 false = .ok false
      ∧ ∃ e, date_is_older_than_n_days 63715334400000000 "2020-01-28" 7 true = .error e)
    ∧ (date_is_older_than_n_days 63715334400000000 "11:39:03" 7 false = .ok false
      ∧ ∃ e, date_is_older_than_n_days 63715334400000000 "11:39:03" 7 true = .error e)
    ∧ (date_is_older_than_n_days 63715334400000000 "2020-01-28T11:39:03" 7 false = .ok false
      ∧ ∃ e, date_is_older_than_n_days 63715334400000000 "2020-01-28T11:39:03" 7 true = .error e)
    ∧ date_is_older_than_n_days 63715334400000000 "2020-01-28T11:39:03+02:00" 7 true
        = date_is_older_than_n_days 63715334400000000 "2020-01-28T11:39:03+02:00" 7 false := by
  refine ⟨?_, ?_, ?_, ?_⟩
  · exact (date_check_fails_open "2020-01-28" 63715334400000000 7).1 rfl
  · exact (date_check_fails_open "11:39:03" 63715334400000000 7).1 rfl
  · exact (date_check_fails_open "2020-01-28T11:39:03" 63715334400000000 7).1 rfl
  · exact ((date_check_fails_open "2020-01-28T11:39:03+02:00" 63715334400000000 7).2
      63715887543000000 rfl).1

/-! ### Whitespace guard (C2) -/

theorem parseCommitLine_error_shape (l : String) (e : ScanError)
    (hl : parseCommitLine l = .error e) : e = .malformedCommitLine l := by
  unfold parseCommitLine at hl
  split at hl
  · cases hl
  · injection hl with h2
    exact h2.symm

theorem parseCommitLines_not_invalid (lines : List String) :
    isInvalidIdentifier (parseCommitLines lines) = false := by
  induction lines with
  | nil => rfl
  | cons l rest ih =>
    cases hl : parseCommitLine l with
    | error e =>
      rw [parseCommitLine_error_shape l e hl] at hl
      simp [parseCommitLines, hl, isInvalidIdentifier]
    | ok c =>
      cases hr : parseCommitLines rest with
      | error e =>
        rw [hr] at ih
        simpa [parseCommitLines, hl, hr] using ih
      | ok cs => simp [parseCommitLines, hl, hr, isInvalidIdentifier]

/-- C2: a branch name or repository path containing whitespace makes both
branch discovery and divergence reading fail with `InvalidIdentifier`, and
the result is then independent of the subprocess oracle (no external
command is executed); with whitespace-free identifiers the assertion never
fires. -/
theorem whitespace_rejected_before_exec (ex exAlt : String → List String)
    (branch repo_dir source target : String) (include_main : Bool) (main : String) :
    ((hasPyWs branch || hasPyWs repo_dir) = true ↔
      isInvalidIdentifier
        (get_list_of_unmerged_branches ex branch repo_dir include_main main) = true)
    ∧ ((hasPyWs branch || hasPyWs repo_dir) = true →
        get_list_of_unmerged_branches ex branch repo_dir include_main main
          = get_list_of_unmerged_branches exAlt branch repo_dir include_main main)
    ∧ ((hasPyWs source || hasPyWs target || hasPyWs repo_dir) = true ↔
      isInvalidIdentifier (get_list_of_unmerged_commits ex source target repo_dir) = true)
    ∧ ((hasPyWs source || hasPyWs target || hasPyWs repo_dir) = true →
        get_list_of_unmerged_commits ex source target repo_dir
          = get_list_of_unmerged_commits exAlt source target repo_dir) := by
  have hinv : ∀ (msg : String) (α : Type),
      isInvalidIdentifier (Except.error (ScanError.invalidIdentifier msg) : Except ScanError α)
        = true := fun _ _ => rfl
  have hok : ∀ (α : Type) (v : α),
      isInvalidIdentifier (Except.ok v : Except ScanError α) = false := fun _ _ => rfl
  refine ⟨?_, ?_, ?_, ?_⟩
  · cases hb : hasPyWs branch <;> cases hr : hasPyWs repo_dir <;>
      simp [get_list_of_unmerged_branches, hb, hr, hinv, hok]
  · cases hb : hasPyWs branch <;> cases hr : hasPyWs repo_dir <;>
      simp [get_list_of_unmerged_branches, hb, hr]
  · cases hs : hasPyWs source <;> cases ht : hasPyWs target <;> cases hr : hasPyWs repo_dir <;>
      simp [get_list_of_unmerged_commits, hs, ht, hr, hinv, hok,
        parseCommitLines_not_invalid]
  · cases hs : hasPyWs source <;> cases ht : hasPyWs target <;> cases hr : hasPyWs repo_dir <;>
      simp [get_list_of_unmerged_commits, hs, ht, hr]

/-- C2 witness: `"bad branch"` and `"bad dir"` are rejected as
`InvalidIdentifier` with the result independent of the subprocess oracle,
while `"develop"`/`"."` pass the assertion. -/
theorem whitespace_rejected_before_exec_witness :
    isInvalidIdentifier
      (get_list_of_unmerged_branches (fun _ => []) "bad branch" "." false "main") = true
    ∧ get_list_of_unmerged_branches (fun _ => ["origin/x"]) "bad branch" "." false "main"
        = get_list_of_unmerged_branches (fun _ => []) "bad branch" "." false "main"
    ∧ isInvalidIdentifier
        (get_list_of_unmerged_commits (fun _ => []) "feat" "main" "bad dir") = true
    ∧ get_list_of_unmerged_commits (fun _ => ["junk"]) "feat" "main" "bad dir"
        = get_list_of_unmerged_commits (fun _ => []) "feat" "main" "bad dir"
    ∧ isInvalidIdentifier
        (get_list_of_unmerged_branches (fun _ => []) "develop" "." false "main") = false := by
  refine ⟨?_, ?_, ?_, ?_, ?_⟩
  · exact (whitespace_rejected_before_exec (fun _ => []) (fun _ => [])
      "bad branch" "." "s" "t" false "main").1.mp (by decide)
  · exact (whitespace_rejected_before_exec (fun _ => ["origin/x"]) (fun _ => [])
      "bad branch" "." "s" "t" false "main").2.1 (by decide)
  · exact (whitespace_rejected_before_exec (fun _ => []) (fun _ => [])
      "b" "bad dir" "feat" "main" false "main").2.2.1.mp (by decide)
  · exact (whitespace_rejected_before_exec (fun _ => ["junk"]) (fun _ => [])
      "b" "bad dir" "feat" "main" false "main").2.2.2 (by decide)
  · rfl

/-! ### Branch-discovery post-filter (C4) -/

/-- C4 counterexample: with integration ref `develop` and default main
branch `main`, the post-filter keeps the integration branch's own remote
name (`origin/develop`) even though the include flag is off, and drops
`origin/main`, which is not the integration branch: the filter targets the
scanner's configured main branch, not the integration ref. -/
theorem branch_postfilter_counterexample :
    get_list_of_unmerged_branches (fun _ => ["  origin/develop", "  origin/main"])
      "develop" "." false "main" = .ok ["origin/develop"] := by rfl

/-- C4 (amended): the post-filter strips each listing line, drops every
entry containing whitespace, and drops the remote name of the scanner's
configured main branch (`origin/<main_branch_name>`) unless the include
flag is set — all other entries are kept in their original order.  When the
integration ref is the default main branch this coincides with dropping the
integration branch's own name. -/
theorem branch_postfilter_characterization (ex : String → List String)
    (branch repo_dir : String) (include_main : Bool) (main : String)
    (hb : hasPyWs branch = false) (hr : hasPyWs repo_dir = false) :
    get_list_of_unmerged_branches ex branch repo_dir include_main main
    = .ok (((ex ("git -P branch -r --no-merged " ++ originNamespaced branch)).map
        pyStrip).filter
        (fun b => !hasPyWs b && (include_main || !(b == "origin/" ++ main)))) := by
  have hpt : branch_filter include_main main
      = (fun b => !hasPyWs b && (include_main || !(b == "origin/" ++ main))) := by
    funext b
    unfold branch_filter
    cases h1 : hasPyWs b
    · cases hm : include_main
      · by_cases h2 : b = "origin/" ++ main <;> simp [h1, h2]
      · simp [h1]
    · simp [h1]
  simp [get_list_of_unmerged_branches, hb, hr, hpt]

/-- C4 witness: a listing with one whitespace-polluted artifact line and
the main branch present keeps the clean entries, in order, and drops
`origin/main`. -/
theorem branch_postfilter_characterization_witness :
    get_list_of_unmerged_branches
        (fun _ => ["  origin/a", "bad line", "  origin/main", "  origin/dev"])
        "dev" "." false "main"
      = .ok ["origin/a", "origin/dev"] := by
  have h := branch_postfilter_characterization
    (fun _ => ["  origin/a", "bad line", "  origin/main", "  origin/dev"])
    "dev" "." false "main" rfl rfl
  exact h.trans (by rfl)

/-! ### Dictionary lemmas -/

theorem lookup_cons {β : Type} (k0 k' : String) (v0 : β) (tl : List (String × β)) :
    List.lookup k' ((k0, v0) :: tl) = if k' = k0 then some v0 else List.lookup k' tl := by
  cases h : (k' == k0) with
  | true =>
    have h' : k' = k0 := by simpa using h
    simp [List.lookup, h, h']
  | false =>
    have h' : ¬ k' = k0 := by simpa using h
    simp [List.lookup, h, h']

theorem lookup2_cons {β : Type} (k0 : String) (d0 : List (String × β))
    (tl : List (String × List (String × β))) (p q : String) :
    lookup2 ((k0, d0) :: tl) p q = if p = k0 then d0.lookup q else lookup2 tl p q := by
  by_cases h : p = k0 <;> simp [lookup2, lookup_cons, h]

theorem lookup3_cons {β : Type} (k0 : String) (d0 : List (String × List (String × β)))
    (tl : List (String × List (String × List (String × β)))) (p q t : String) :
    lookup3 ((k0, d0) :: tl) p q t = if p = k0 then lookup2 d0 q t else lookup3 tl p q t := by
  by_cases h : p = k0 <;> simp [lookup3, lookup2, lookup_cons, h]

theorem lookup_nil {β : Type} (k' : String) :
    List.lookup k' ([] : List (String × β)) = none := rfl

theorem lookup2_nil {β : Type} (p q : String) :
    lookup2 ([] : List (String × List (String × β))) p q = none := rfl

theorem lookup3_nil {β : Type} (p q t : String) :
    lookup3 ([] : List (String × List (String × List (String × β)))) p q t = none := rfl

theorem lookup_listUpdate {β : Type} (l : List (String × β)) (k k' : String) (v : β) :
    (listUpdate l k v).lookup k' = if k' = k then some v else l.lookup k' := by
  induction l with
  | nil => simp [listUpdate, lookup_cons, lookup_nil]
  | cons hd tl ih =>
    obtain ⟨k0, v0⟩ := hd
    simp only [listUpdate]
    by_cases h0 : k0 = k
    · subst h0
      by_cases h1 : k' = k0 <;> simp [lookup_cons, h1]
    · simp only [if_neg h0]
      by_cases h1 : k' = k0
      · subst h1
        simp [lookup_cons, h0]
      · simp [lookup_cons, h1, ih]

theorem lookup2_update2 {β : Type} (acc : List (String × List (String × β)))
    (k1 k2 p q : String) (v : β) :
    lookup2 (update2 acc k1 k2 v) p q
    = if p = k1 ∧ q = k2 then some v else lookup2 acc p q := by
  induction acc with
  | nil =>
    by_cases hp : p = k1 <;> by_cases hq : q = k2 <;>
      simp [update2, lookup2_cons, lookup_cons, lookup2_nil, lookup_nil, hp, hq]
  | cons hd tl ih =>
    obtain ⟨k0, d0⟩ := hd
    simp only [update2]
    by_cases h0 : k0 = k1
    · subst h0
      simp only [if_pos rfl]
      by_cases hp : p = k0
      · subst hp
        by_cases hq : q = k2 <;>
          simp [lookup2_cons, lookup_listUpdate, hq]
      · simp [lookup2_cons, hp]
    · simp only [if_neg h0]
      by_cases hp : p = k0
      · subst hp
        simp [lookup2_cons, h0]
      · simp [lookup2_cons, hp, ih]

theorem lookup3_update3 {β : Type}
    (acc : List (String × List (String × List (String × β))))
    (k1 k2 k3 p q t : String) (v : β) :
    lookup3 (update3 acc k1 k2 k3 v) p q t
    = if p = k1 ∧ q = k2 ∧ t = k3 then some v else lookup3 acc p q t := by
  induction acc with
  | nil =>
    by_cases hp : p = k1 <;> by_cases hq : q = k2 <;> by_cases ht : t = k3 <;>
      simp [update3, lookup3_cons, lookup2_cons, lookup_cons, lookup3_nil,
        lookup2_nil, lookup_nil, hp, hq, ht]
  | cons hd tl ih =>
    obtain ⟨k0, d0⟩ := hd
    simp only [update3]
    by_cases h0 : k0 = k1
    · subst h0
      simp only [if_pos rfl]
      by_cases hp : p = k0
      · subst hp
        simp [lookup3_cons, lookup2_update2]
      · simp [lookup3_cons, hp]
    · simp only [if_neg h0]
      by_cases hp : p = k0
      · subst hp
        simp [lookup3_cons, h0]
      · simp [lookup3_cons, hp, ih]

/-! ### By-repository pivot (C7) -/

theorem foldl_update2_lookup2 (rs : List ScanRecord)
    (acc : List (String × List (String × ScanResult))) (p q : String) :
    lookup2 (rs.foldl (fun a r => update2 a r.repo_dir r.branch r.report) acc) p q
    = match lastPairReport p q rs with
      | some rep => some rep
      | none => lookup2 acc p q := by
  induction rs generalizing acc with
  | nil => simp [lastPairReport]
  | cons r rest ih =>
    simp only [List.foldl_cons, lastPairReport]
    rw [ih]
    cases hlast : lastPairReport p q rest with
    | some rep => simp
    | none =>
      simp only []
      rw [lookup2_update2]
      by_cases hpq : p = r.repo_dir ∧ q = r.branch
      · rw [if_pos hpq, if_pos ⟨hpq.1.symm, hpq.2.symm⟩]
      · rw [if_neg hpq, if_neg (fun h => hpq ⟨h.1.symm, h.2.symm⟩)]

theorem lastPairReport_of_absent (p q : String) (l : List ScanRecord)
    (h : ∀ y ∈ l, ¬ (y.repo_dir = p ∧ y.branch = q)) :
    lastPairReport p q l = none := by
  induction l with
  | nil => rfl
  | cons x xs ih =>
    have hx := h x (List.mem_cons_self x xs)
    rw [lastPairReport, ih (fun y hy => h y (List.mem_cons_of_mem x hy)), if_neg hx]

theorem lastPairReport_unique (r : ScanRecord) (l : List ScanRecord)
    (hdist : l.Pairwise (fun a b => (a.repo_dir, a.branch) ≠ (b.repo_dir, b.branch)))
    (hr : r ∈ l) :
    lastPairReport r.repo_dir r.branch l = some r.report := by
  induction l with
  | nil => cases hr
  | cons x xs ih =>
    have hx := List.pairwise_cons.mp hdist
    rcases List.mem_cons.mp hr with rfl | hin
    · have habs : ∀ y ∈ xs, ¬ (y.repo_dir = r.repo_dir ∧ y.branch = r.branch) := by
        intro y hy hc
        exact hx.1 y hy (by rw [hc.1, hc.2])
      rw [lastPairReport, lastPairReport_of_absent _ _ xs habs, if_pos ⟨rfl, rfl⟩]
    · rw [lastPairReport, ih hx.2 hin]

/-- C7: for ScanRecords with pairwise-distinct `(repoLocation, branch)`
pairs, pivoting by repository and reading back `[repo_dir][branch]`
reproduces each record's report exactly. -/
theorem aggregate_by_repo_roundtrip (records : List ScanRecord)
    (hdist : records.Pairwise
      (fun a b => (a.repo_dir, a.branch) ≠ (b.repo_dir, b.branch)))
    (r : ScanRecord) (hr : r ∈ records) :
    lookup2 (aggregate_scan_results_by_repo records) r.repo_dir r.branch
      = some r.report := by
  unfold aggregate_scan_results_by_repo
  rw [foldl_update2_lookup2, lastPairReport_unique r records hdist hr]

/-- C7 witness: a two-record batch with distinct `(repo, branch)` pairs
round-trips through the by-repository pivot. -/
theorem aggregate_by_repo_roundtrip_witness :
    lookup2 (aggregate_scan_results_by_repo
        [⟨"main", "w/r1", [("origin/f", [("a@x.com", [⟨"h1", "2020-01-01T00:00:00+00:00", "s"⟩])])]⟩,
         ⟨"dev", "w/r2", []⟩])
      "w/r2" "dev" = some [] := by
  exact aggregate_by_repo_roundtrip
    [⟨"main", "w/r1", [("origin/f", [("a@x.com", [⟨"h1", "2020-01-01T00:00:00+00:00", "s"⟩])])]⟩,
     ⟨"dev", "w/r2", []⟩]
    (by decide) ⟨"dev", "w/r2", []⟩ (by decide)

/-! ### By-author pivot, inner key (C9) -/

/-- C9: the innermost key of the by-author pivot is the record's
integration (target) branch, and within one record a later stale branch
with the same author overwrites an earlier one: only the last branch's
commit list survives. -/
theorem aggregate_by_email_last_write_wins (br repo b1 b2 a : String)
    (l1 l2 : List CommitD) (_hb : b1 ≠ b2) :
    aggregate_scan_results_by_email
        [⟨br, repo, [(b1, [(a, l1)]), (b2, [(a, l2)])]⟩]
      = [(a, [(repo, [(br, l2)])])] := by
  simp [aggregate_scan_results_by_email, stepEmail, emailInsert, update3, update2,
    listUpdate]

/-- C9 witness: two stale branches by the same author in one record leave
only the second branch's commit list, keyed by the integration branch. -/
theorem aggregate_by_email_last_write_wins_witness :
    aggregate_scan_results_by_email
        [⟨"main", "w/r", [("origin/f1", [("a@x.com", [⟨"h1", "2020-01-01T00:00:00+00:00", "s1"⟩])]),
                          ("origin/f2", [("a@x.com", [⟨"h2", "2020-01-02T00:00:00+00:00", "s2"⟩])])]⟩]
      = [("a@x.com", [("w/r", [("main", [⟨"h2", "2020-01-02T00:00:00+00:00", "s2"⟩])])])] := by
  exact aggregate_by_email_last_write_wins "main" "w/r" "origin/f1" "origin/f2" "a@x.com"
    [⟨"h1", "2020-01-01T00:00:00+00:00", "s1"⟩]
    [⟨"h2", "2020-01-02T00:00:00+00:00", "s2"⟩]
    (by decide)

/-! ### By-author pivot across repositories (C8) -/

theorem report_foldl_eq_writes {σ : Type} (rep : ScanResult)
    (f : σ → (String × List CommitD) → σ) (acc : σ) :
    rep.foldl (fun a2 bc => bc.2.foldl f a2) acc
      = (rep.flatMap (fun bc => bc.2)).foldl f acc := by
  induction rep generalizing acc with
  | nil => rfl
  | cons bc rest ih => simp [List.foldl_append, ih]

theorem foldl_emailInsert_lookup3 (R B a p t : String) :
    ∀ (ws : List (String × List CommitD))
      (acc : List (String × List (String × List (String × List CommitD)))),
      lookup3 (ws.foldl (emailInsert R B) acc) a p t
      = if p = R ∧ t = B then
          match lastWrite a ws with
          | some l => some l
          | none => lookup3 acc a p t
        else lookup3 acc a p t := by
  intro ws
  induction ws with
  | nil =>
    intro acc
    by_cases h : p = R ∧ t = B <;> simp [lastWrite, h]
  | cons w rest ih =>
    intro acc
    simp only [List.foldl_cons]
    rw [ih]
    by_cases hcond : p = R ∧ t = B
    · rw [if_pos hcond, if_pos hcond]
      cases hlast : lastWrite a rest with
      | some l => simp [lastWrite, hlast]
      | none =>
        simp only [lastWrite, hlast]
        unfold emailInsert
        rw [lookup3_update3]
        by_cases hw : w.1 = a
        · rw [if_pos ⟨hw.symm, hcond.1, hcond.2⟩, if_pos hw]
        · rw [if_neg (fun h => hw h.1.symm), if_neg hw]
    · rw [if_neg hcond, if_neg hcond]
      unfold emailInsert
      rw [lookup3_update3, if_neg (fun h => hcond ⟨h.2.1, h.2.2⟩)]

theorem lookup3_stepEmail
    (acc : List (String × List (String × List (String × List CommitD))))
    (r : ScanRecord) (a p t : String) :
    lookup3 (stepEmail acc r) a p t
    = if p = r.repo_dir ∧ t = r.branch then
        match lastAuthorGroup a r.report with
        | some l => some l
        | none => lookup3 acc a p t
      else lookup3 acc a p t := by
  unfold stepEmail lastAuthorGroup
  rw [report_foldl_eq_writes, foldl_emailInsert_lookup3]

theorem countP_cons_key {β : Type} (a k : String) (d : β) (tl : List (String × β)) :
    countKey a ((k, d) :: tl) = countKey a tl + if k = a then 1 else 0 := by
  by_cases h : k = a <;> simp [countKey, List.countP_cons, h]

theorem lookup_none_iff_countKey_zero {β : Type} (a : String) (l : List (String × β)) :
    l.lookup a = none ↔ countKey a l = 0 := by
  induction l with
  | nil => simp [countKey]
  | cons hd tl ih =>
    obtain ⟨k, d⟩ := hd
    rw [lookup_cons, countP_cons_key]
    by_cases h : a = k
    · subst h
      simp
    · have h2 : ¬ k = a := fun hh => h hh.symm
      simp [h, h2, ih]

theorem countKey_update3 {β : Type} (a k1 k2 k3 : String) (v : β)
    (acc : List (String × List (String × List (String × β)))) :
    countKey a (update3 acc k1 k2 k3 v)
    = countKey a acc + if k1 = a ∧ (acc.lookup k1).isNone = true then 1 else 0 := by
  induction acc with
  | nil =>
    by_cases h : k1 = a <;> simp [update3, countKey, List.countP_cons, lookup_nil, h]
  | cons hd tl ih =>
    obtain ⟨k, d⟩ := hd
    simp only [update3]
    by_cases h0 : k = k1
    · subst h0
      rw [if_pos rfl, countP_cons_key, countP_cons_key, lookup_cons, if_pos rfl]
      simp
    · have hlk : List.lookup k1 ((k, d) :: tl) = List.lookup k1 tl := by
        rw [lookup_cons, if_neg (fun hh => h0 hh.symm)]
      rw [if_neg h0, countP_cons_key, ih, countP_cons_key, hlk]
      exact Nat.add_right_comm _ _ _

theorem countKey_update3_le_one {β : Type} (a k1 k2 k3 : String) (v : β)
    (acc : List (String × List (String × List (String × β))))
    (h : countKey a acc ≤ 1) :
    countKey a (update3 acc k1 k2 k3 v) ≤ 1 := by
  rw [countKey_update3]
  by_cases hc : k1 = a ∧ (acc.lookup k1).isNone = true
  · have h0 : countKey a acc = 0 := by
      rw [← lookup_none_iff_countKey_zero]
      rw [hc.1]  at hc
      exact Option.isNone_iff_eq_none.mp hc.2
    rw [if_pos hc]
    omega
  · rw [if_neg hc]
    omega

theorem foldl_preserve {α σ : Type} (f : σ → α → σ) (P : σ → Prop)
    (hf : ∀ s x, P s → P (f s x)) :
    ∀ (l : List α) (s : σ), P s → P (l.foldl f s) := by
  intro l
  induction l with
  | nil => intro s hs; exact hs
  | cons x xs ih =>
    intro s hs
    exact ih (f s x) (hf s x hs)

theorem countKey_stepEmail_le_one (a : String)
    (acc : List (String × List (String × List (String × List CommitD))))
    (r : ScanRecord) (h : countKey a acc ≤ 1) :
    countKey a (stepEmail acc r) ≤ 1 := by
  unfold stepEmail
  rw [report_foldl_eq_writes]
  exact foldl_preserve _ (fun s => countKey a s ≤ 1)
    (fun s w hs => countKey_update3_le_one a w.1 r.repo_dir r.branch w.2 s hs)
    _ acc h

theorem countKey_aggregate_by_email_le_one (a : String) (records : List ScanRecord) :
    countKey a (aggregate_scan_results_by_email records) ≤ 1 := by
  unfold aggregate_scan_results_by_email
  exact foldl_preserve _ (fun s => countKey a s ≤ 1)
    (fun s r hs => countKey_stepEmail_le_one a s r hs)
    records [] (by simp [countKey])

theorem countKey_pos_of_lookup3_some {β : Type} (a p t : String)
    (acc : List (String × List (String × List (String × β))))
    (hl : lookup3 acc a p t ≠ none) : 1 ≤ countKey a acc := by
  by_contra h
  have h0 : countKey a acc = 0 := by omega
  have : acc.lookup a = none := (lookup_none_iff_countKey_zero a acc).mpr h0
  unfold lookup3 at hl
  rw [this] at hl
  exact hl rfl

/-- C8: two ScanRecords with different repositories whose reports both
contain commits by author `a` pivot to a single author entry holding both
repositories as sub-keys, each with that author's commits from the
corresponding record under that record's integration branch. -/
theorem aggregate_by_email_cross_repo (r1 r2 : ScanRecord) (a : String)
    (l1 l2 : List CommitD)
    (hrepo : r1.repo_dir ≠ r2.repo_dir)
    (h1 : lastAuthorGroup a r1.report = some l1)
    (h2 : lastAuthorGroup a r2.report = some l2) :
    lookup3 (aggregate_scan_results_by_email [r1, r2]) a r1.repo_dir r1.branch = some l1
    ∧ lookup3 (aggregate_scan_results_by_email [r1, r2]) a r2.repo_dir r2.branch = some l2
    ∧ countKey a (aggregate_scan_results_by_email [r1, r2]) = 1 := by
  have hagg : aggregate_scan_results_by_email [r1, r2] = stepEmail (stepEmail [] r1) r2 := rfl
  have hfst : lookup3 (aggregate_scan_results_by_email [r1, r2]) a r1.repo_dir r1.branch
      = some l1 := by
    rw [hagg, lookup3_stepEmail,
      if_neg (fun h => hrepo h.1), lookup3_stepEmail, if_pos ⟨rfl, rfl⟩, h1]
  refine ⟨hfst, ?_, ?_⟩
  · rw [hagg, lookup3_stepEmail, if_pos ⟨rfl, rfl⟩, h2]
  · have hle := countKey_aggregate_by_email_le_one a [r1, r2]
    have hge := countKey_pos_of_lookup3_some a r1.repo_dir r1.branch
      (aggregate_scan_results_by_email [r1, r2]) (by rw [hfst]; exact fun h => by cases h)
    omega

/-- C8 witness: one author with commits in two records over distinct
repositories gets a single author entry with both repository sub-keys. -/
theorem aggregate_by_email_cross_repo_witness :
    lookup3 (aggregate_scan_results_by_email
        [⟨"main", "w/r1", [("origin/f", [("a@x.com", [⟨"h1", "2020-01-01T00:00:00+00:00", "s1"⟩])])]⟩,
         ⟨"dev", "w/r2", [("origin/g", [("a@x.com", [⟨"h2", "2020-01-02T00:00:00+00:00", "s2"⟩])])]⟩])
      "a@x.com" "w/r1" "main" = some [⟨"h1", "2020-01-01T00:00:00+00:00", "s1"⟩]
    ∧ lookup3 (aggregate_scan_results_by_email
        [⟨"main", "w/r1", [("origin/f", [("a@x.com", [⟨"h1", "2020-01-01T00:00:00+00:00", "s1"⟩])])]⟩,
         ⟨"dev", "w/r2", [("origin/g", [("a@x.com", [⟨"h2", "2020-01-02T00:00:00+00:00", "s2"⟩])])]⟩])
      "a@x.com" "w/r2" "dev" = some [⟨"h2", "2020-01-02T00:00:00+00:00", "s2"⟩]
    ∧ countKey "a@x.com" (aggregate_scan_results_by_email
        [⟨"main", "w/r1", [("origin/f", [("a@x.com", [⟨"h1", "2020-01-01T00:00:00+00:00", "s1"⟩])])]⟩,
         ⟨"dev", "w/r2", [("origin/g", [("a@x.com", [⟨"h2", "2020-01-02T00:00:00+00:00", "s2"⟩])])]⟩])
      = 1 := by
  exact aggregate_by_email_cross_repo
    ⟨"main", "w/r1", [("origin/f", [("a@x.com", [⟨"h1", "2020-01-01T00:00:00+00:00", "s1"⟩])])]⟩
    ⟨"dev", "w/r2", [("origin/g", [("a@x.com", [⟨"h2", "2020-01-02T00:00:00+00:00", "s2"⟩])])]⟩
    "a@x.com"
    [⟨"h1", "2020-01-01T00:00:00+00:00", "s1"⟩]
    [⟨"h2", "2020-01-02T00:00:00+00:00", "s2"⟩]
    (by decide) (by decide) (by decide)

/-! ### Pipeline digest (C5, C6) -/

theorem subLinesOfBranch_ok (now : Int) (b : String)
    (cba : List (String × List CommitD))
    (h : ∀ ac ∈ cba, (extract_latest_date_from_commits ac.2).isSome = true) :
    subLinesOfBranch now b cba
      = .ok (cba.map (fun ac =>
          "    * " ++ b ++ " (" ++ toString (stalenessDaysSpec now ac.2) ++ " days)")) := by
  induction cba with
  | nil => rfl
  | cons ac rest ih =>
    obtain ⟨latest, hl⟩ := Option.isSome_iff_exists.mp (h ac (List.mem_cons_self ac rest))
    rw [List.map_cons, subLinesOfBranch, hl,
      ih (fun x hx => h x (List.mem_cons_of_mem ac hx))]
    simp [stalenessDaysSpec, hl]

theorem subLinesOfReport_ok (now : Int) (rep : ScanResult)
    (h : reportGroupsOk rep = true) :
    subLinesOfReport now rep
      = .ok (rep.flatMap (fun bc => bc.2.map (fun ac =>
          "    * " ++ bc.1 ++ " (" ++ toString (stalenessDaysSpec now ac.2) ++ " days)"))) := by
  induction rep with
  | nil => rfl
  | cons bc rest ih =>
    rw [reportGroupsOk, List.all_cons, Bool.and_eq_true] at h
    have hbc : ∀ ac ∈ bc.2, (extract_latest_date_from_commits ac.2).isSome = true :=
      List.all_eq_true.mp h.1
    rw [List.flatMap_cons, subLinesOfReport, subLinesOfBranch_ok now bc.1 bc.2 hbc,
      ih h.2]

theorem pipelineGo_ok (now : Int) (rs : List ScanRecord)
    (h : ∀ r ∈ rs, reportGroupsOk r.report = true) :
    ∀ (scans0 : List (String × ScanResult)) (lines0 : List String),
    pipelineGo now (scans0, lines0) rs
      = .ok (pipelineScans scans0 rs, lines0 ++ rs.flatMap (recordLinesSpec now)) := by
  induction rs with
  | nil =>
    intro scans0 lines0
    simp [pipelineGo, pipelineScans]
  | cons r rest ih =>
    intro scans0 lines0
    have hrest : ∀ x ∈ rest, reportGroupsOk x.report = true :=
      fun x hx => h x (List.mem_cons_of_mem r hx)
    by_cases hemp : r.report = []
    · rw [pipelineScans, if_pos hemp, List.flatMap_cons]
      simp only [pipelineGo, pipelineStep, if_pos hemp]
      rw [ih hrest]
      simp [recordLinesSpec, hemp]
    · rw [pipelineScans, if_neg hemp, List.flatMap_cons]
      simp only [pipelineGo, pipelineStep, if_neg hemp,
        subLinesOfReport_ok now r.report (h r (List.mem_cons_self r rest))]
      rw [ih hrest]
      simp [recordLinesSpec, hemp]

theorem listUpdate_append_of_absent {β : Type} (l : List (String × β)) (k : String)
    (v : β) (h : l.lookup k = none) : listUpdate l k v = l ++ [(k, v)] := by
  induction l with
  | nil => rfl
  | cons hd tl ih =>
    obtain ⟨k0, v0⟩ := hd
    rw [lookup_cons] at h
    by_cases hk : k = k0
    · rw [if_pos hk] at h
      cases h
    · rw [if_neg hk] at h
      rw [listUpdate, if_neg (fun hh => hk hh.symm), ih h, List.cons_append]

theorem lookup_append_left_none {β : Type} (l1 l2 : List (String × β)) (k : String)
    (h : l1.lookup k = none) : (l1 ++ l2).lookup k = l2.lookup k := by
  induction l1 with
  | nil => rfl
  | cons hd tl ih =>
    obtain ⟨k0, v0⟩ := hd
    rw [lookup_cons] at h
    by_cases hk : k = k0
    · rw [if_pos hk] at h
      cases h
    · rw [if_neg hk] at h
      rw [List.cons_append, lookup_cons, if_neg hk, ih h]

theorem pipelineScans_eq (rs : List ScanRecord) :
    ∀ (scans0 : List (String × ScanResult)),
    (∀ r ∈ rs, r.report ≠ [] → scans0.lookup (scanId r) = none) →
    ((rs.filter (fun r => !r.report.isEmpty)).map scanId).Nodup →
    pipelineScans scans0 rs
      = scans0 ++ (rs.filter (fun r => !r.report.isEmpty)).map
          (fun r => (scanId r, r.report)) := by
  induction rs with
  | nil =>
    intro scans0 _ _
    simp [pipelineScans]
  | cons r rest ih =>
    intro scans0 habs hnd
    by_cases hemp : r.report = []
    · have hfilter : (r :: rest).filter (fun r => !r.report.isEmpty)
          = rest.filter (fun r => !r.report.isEmpty) := by
        rw [List.filter_cons]
        simp [hemp]
      rw [hfilter] at hnd
      rw [pipelineScans, if_pos hemp, hfilter]
      exact ih scans0 (fun x hx hne => habs x (List.mem_cons_of_mem r hx) hne) hnd
    · have hfilter : (r :: rest).filter (fun r => !r.report.isEmpty)
          = r :: rest.filter (fun r => !r.report.isEmpty) := by
        rw [List.filter_cons]
        simp [hemp]
      rw [hfilter] at hnd
      rw [List.map_cons, List.nodup_cons] at hnd
      rw [pipelineScans, if_neg hemp,
        listUpdate_append_of_absent scans0 (scanId r) r.report
          (habs r (List.mem_cons_self r rest) hemp),
        ih (scans0 ++ [(scanId r, r.report)])
          (fun x hx hne => ?_) hnd.2,
        hfilter, List.map_cons, List.append_assoc, List.singleton_append]
      rw [lookup_append_left_none _ _ _ (habs x (List.mem_cons_of_mem r hx) hne),
        lookup_cons]
      have hne2 : ¬ scanId x = scanId r := by
        intro hc
        exact hnd.1 (hc ▸ List.mem_map_of_mem scanId
          (List.mem_filter.mpr ⟨hx, by simp [hne]⟩))
      rw [if_neg hne2, lookup_nil]

theorem mem_insortStable {α : Type} (le : α → α → Bool) (x y : α) (l : List α) :
    y ∈ insortStable le x l ↔ y = x ∨ y ∈ l := by
  induction l with
  | nil => simp [insortStable]
  | cons z zs ih =>
    rw [insortStable]
    by_cases h : le x z
    · simp [h]
    · simp only [if_neg h, List.mem_cons, ih]
      tauto

theorem mem_pySorted {α : Type} (le : α → α → Bool) (y : α) (l : List α) :
    y ∈ pySorted le l ↔ y ∈ l := by
  induction l with
  | nil => simp [pySorted]
  | cons x xs ih =>
    rw [pySorted, List.foldr_cons]
    rw [show List.foldr (insortStable le) [] xs = pySorted le xs from rfl] at *
    rw [mem_insortStable, ih, List.mem_cons]

/-- C6: the digest builder processes the records in ascending order of
`(basename(repo_dir), branch)`, and its message consists, per record, of a
fresh line or of a summary line followed by exactly one sub-line per
`(branch, author, commits)` triple whose staleness comes from the group's
most recent (maximum-timestamp) commit — a per-group newest-commit
computation, unlike the all-commits-old staleness filter. -/
theorem create_pipeline_report_message (now : Int) (records : List ScanRecord)
    (hok : ∀ r ∈ records, reportGroupsOk r.report = true) :
    ∃ res, create_pipeline_report now records = .ok res
      ∧ res.message = String.intercalate "\n"
          ((pySorted recordKeyLe records).flatMap (recordLinesSpec now)) := by
  have hok2 : ∀ r ∈ pySorted recordKeyLe records, reportGroupsOk r.report = true :=
    fun r hr => hok r ((mem_pySorted recordKeyLe r records).mp hr)
  have h := pipelineGo_ok now (pySorted recordKeyLe records) hok2 [] []
  refine ⟨⟨pipelineScans [] (pySorted recordKeyLe records),
    String.intercalate "\n" ((pySorted recordKeyLe records).flatMap (recordLinesSpec now))⟩,
    ?_, rfl⟩
  unfold create_pipeline_report pipelineFold
  rw [h]
  simp

/-- C6 witness: a concrete two-record batch (one fresh, one with two author
groups) satisfies the sorted flat-map message characterization. -/
theorem create_pipeline_report_message_witness :
    ∃ res, create_pipeline_report 63715334400000000
        [⟨"main", "w/beta",
          [("origin/f1", [("a@x.com", [⟨"h1", "2020-01-01T00:00:00+00:00", "s1"⟩,
                                       ⟨"h2", "2020-01-05T12:00:00+02:00", "s2"⟩]),
                          ("b@x.com", [⟨"h3", "2020-01-03T00:00:00+00:00", "s3"⟩])])]⟩,
         ⟨"main", "w/alpha", []⟩]
      = .ok res
      ∧ res.message = String.intercalate "\n"
          ((pySorted recordKeyLe
            [⟨"main", "w/beta",
              [("origin/f1", [("a@x.com", [⟨"h1", "2020-01-01T00:00:00+00:00", "s1"⟩,
                                           ⟨"h2", "2020-01-05T12:00:00+02:00", "s2"⟩]),
                              ("b@x.com", [⟨"h3", "2020-01-03T00:00:00+00:00", "s3"⟩])])]⟩,
             ⟨"main", "w/alpha", []⟩]).flatMap
            (recordLinesSpec 63715334400000000)) := by
  exact create_pipeline_report_message 63715334400000000
    [⟨"main", "w/beta",
      [("origin/f1", [("a@x.com", [⟨"h1", "2020-01-01T00:00:00+00:00", "s1"⟩,
                                   ⟨"h2", "2020-01-05T12:00:00+02:00", "s2"⟩]),
                      ("b@x.com", [⟨"h3", "2020-01-03T00:00:00+00:00", "s3"⟩])])]⟩,
     ⟨"main", "w/alpha", []⟩]
    (by decide)

/-- C5 counterexample: the composite digest key carries angle brackets —
`"<r>:b"`, not `"r:b"` — and two non-fresh records sharing repo basename
and branch collapse to a single scans entry (the later record's report
overwrites the earlier one), so the scans dict does not hold the earlier
non-fresh record. -/
theorem create_pipeline_scans_counterexample :
    (create_pipeline_report 63715334400000000
        [⟨"b", "w1/r", [("origin/x", [("a@x.com", [⟨"h1", "2020-01-01T00:00:00+00:00", "s1"⟩])])]⟩,
         ⟨"b", "w2/r", [("origin/y", [("b@x.com", [⟨"h2", "2020-01-02T00:00:00+00:00", "s2"⟩])])]⟩]).map
      PipelineReport.scans
    = .ok [("<r>:b",
        [("origin/y", [("b@x.com", [⟨"h2", "2020-01-02T00:00:00+00:00", "s2"⟩])])])] := by
  rfl

/-- C5 (amended): each fresh record contributes a `*fresh*` message line
and is never placed in the digest's scans dict; each non-fresh record is
placed under the composite key `"<repoName>:branch"` (angle brackets around
the basename) with its full report; provided the composite ids of the
non-fresh records are pairwise distinct — the code assumes repo names are
unique — the scans dict holds exactly the non-fresh records. -/
theorem create_pipeline_scans (now : Int) (records : List ScanRecord)
    (hok : ∀ r ∈ records, reportGroupsOk r.report = true)
    (hnd : (((pySorted recordKeyLe records).filter
        (fun r => !r.report.isEmpty)).map scanId).Nodup) :
    ∃ lines, pipelineFold now records
        = .ok (((pySorted recordKeyLe records).filter
            (fun r => !r.report.isEmpty)).map (fun r => (scanId r, r.report)), lines)
      ∧ create_pipeline_report now records
          = .ok ⟨((pySorted recordKeyLe records).filter
              (fun r => !r.report.isEmpty)).map (fun r => (scanId r, r.report)),
            String.intercalate "\n" lines⟩
      ∧ ∀ r ∈ records, r.report = [] →
          (" - " ++ scanId r ++ " *fresh*") ∈ lines := by
  have hok2 : ∀ r ∈ pySorted recordKeyLe records, reportGroupsOk r.report = true :=
    fun r hr => hok r ((mem_pySorted recordKeyLe r records).mp hr)
  have hgo := pipelineGo_ok now (pySorted recordKeyLe records) hok2 [] []
  have hscans := pipelineScans_eq (pySorted recordKeyLe records) []
    (fun r _ _ => rfl) hnd
  rw [hscans, List.nil_append] at hgo
  refine ⟨(pySorted recordKeyLe records).flatMap (recordLinesSpec now), ?_, ?_, ?_⟩
  · rw [pipelineFold, hgo]
    simp
  · unfold create_pipeline_report pipelineFold
    rw [hgo]
    simp
  · intro r hr hemp
    refine List.mem_flatMap.mpr ⟨r, (mem_pySorted recordKeyLe r records).mpr hr, ?_⟩
    simp [recordLinesSpec, hemp]

/-- C5 witness: a fresh and a non-fresh record; the scans dict holds
exactly the non-fresh one under `"<r1>:main"`, and the fresh line for
`"<r2>:dev"` is in the message lines. -/
theorem create_pipeline_scans_witness :
    ∃ lines, pipelineFold 63715334400000000
        [⟨"main", "w/r1", [("origin/f", [("a@x.com", [⟨"h1", "2020-01-01T00:00:00+00:00", "s1"⟩])])]⟩,
         ⟨"dev", "w/r2", []⟩]
        = .ok (((pySorted recordKeyLe
            [⟨"main", "w/r1", [("origin/f", [("a@x.com", [⟨"h1", "2020-01-01T00:00:00+00:00", "s1"⟩])])]⟩,
             ⟨"dev", "w/r2", []⟩]).filter
            (fun r => !r.report.isEmpty)).map (fun r => (scanId r, r.report)), lines)
      ∧ create_pipeline_report 63715334400000000
          [⟨"main", "w/r1", [("origin/f", [("a@x.com", [⟨"h1", "2020-01-01T00:00:00+00:00", "s1"⟩])])]⟩,
           ⟨"dev", "w/r2", []⟩]
          = .ok ⟨((pySorted recordKeyLe
              [⟨"main", "w/r1", [("origin/f", [("a@x.com", [⟨"h1", "2020-01-01T00:00:00+00:00", "s1"⟩])])]⟩,
               ⟨"dev", "w/r2", []⟩]).filter
              (fun r => !r.report.isEmpty)).map (fun r => (scanId r, r.report)),
            String.intercalate "\n" lines⟩
      ∧ ∀ r ∈ [⟨"main", "w/r1", [("origin/f", [("a@x.com", [⟨"h1", "2020-01-01T00:00:00+00:00", "s1"⟩])])]⟩,
               (⟨"dev", "w/r2", []⟩ : ScanRecord)], r.report = [] →
          (" - " ++ scanId r ++ " *fresh*") ∈ lines := by
  exact create_pipeline_scans 63715334400000000
    [⟨"main", "w/r1", [("origin/f", [("a@x.com", [⟨"h1", "2020-01-01T00:00:00+00:00", "s1"⟩])])]⟩,
     ⟨"dev", "w/r2", []⟩]
    (by decide) (by decide)

/-- C10: `write_report` returns exit code 0 when the print/save action
succeeds; when it raises, the handler prints one diagnostic line and then
re-raises by default, or returns exit code 1 when `raise_exceptions` is
disabled — never a silent drop. -/
theorem write_report_never_silent (po : Except String Unit)
    (so : String → Except String Unit) (output : Option String) (re : Bool) :
    (effectiveWrite po so output = .ok () →
      write_report po so output re = ([], .ok 0))
    ∧ (∀ e, effectiveWrite po so output = .error e →
      write_report po so output re =
        (["exception saving report: " ++ e], if re then .error e else .ok 1)) := by
  unfold write_report
  constructor
  · intro h
    rw [h]
  · intro e h
    rw [h]

/-- C10 witness: a successful print returns 0; a failing save prints the
diagnostic and re-raises when `raise_exceptions` is on, or returns 1 when
it is off. -/
theorem write_report_never_silent_witness :
    write_report (.ok ()) (fun _ => .error "disk full") none true = ([], .ok 0)
    ∧ write_report (.ok ()) (fun _ => .error "disk full") (some "out.json") true
        = (["exception saving report: disk full"], .error "disk full")
    ∧ write_report (.ok ()) (fun _ => .error "disk full") (some "out.json") false
        = (["exception saving report: disk full"], .ok 1) := by
  refine ⟨?_, ?_, ?_⟩
  · exact (write_report_never_silent (.ok ()) (fun _ => .error "disk full") none true).1 rfl
  · have := (write_report_never_silent (.ok ())
      (fun _ => .error "disk full") (some "out.json") true).2 "disk full" rfl
    simpa using this
  · have := (write_report_never_silent (.ok ())
      (fun _ => .error "disk full") (some "out.json") false).2 "disk full" rfl
    simpa using this

end StaleScan
